import Mathlib

/-!
# Verification of `sam_sexing.py`

A shallow embedding of the core batch-processing routine of `sam_sexing.py`
(function `main`, the per-file scanning loop, the per-sample classification
and the end-of-run threshold-uniformity check), together with theorems
settling the specification claims.

Modelling conventions:
* Python `int` is modelled as `ℤ`; Python `float` values arising here
  (ratios and thresholds, which are exact quotients of machine integers)
  are modelled as exact rationals `ℚ`.
* Python locals that may be *unbound* across loop iterations (`ratio`,
  `threshold`, `seqlen_ychrom`, `seqlen_xchrom`) are modelled with an outer
  `Option` layer (`none` = unbound, reading it raises `NameError`).
  `ratio`/`threshold` may additionally hold Python `None`, hence
  `Option (Option ℚ)`.
* Python exceptions are modelled by `Except PyError`.
* A stats file is modelled as its sample name (the file name with the
  extension stripped) together with the list of line strings the Python
  `for line in lines` loop iterates over.  Directory listing, hidden-file
  and extension filtering happen before the embedded core and are not
  modelled.
-/

/-! ## Python string primitives -/

/-- `startsChars pat s` : `pat` is a leading segment of `s` (on char lists). -/
def startsChars : List Char → List Char → Bool
  | [], _ => true
  | _ :: _, [] => false
  | a :: as, b :: bs => a == b && startsChars as bs

/-- `containsChars pat s` : Python's `pat in s` substring test on char lists. -/
def containsChars (pat : List Char) : List Char → Bool
  | [] => startsChars pat []
  | b :: bs => startsChars pat (b :: bs) || containsChars pat bs

/-- Python's `sub in line` substring containment test on strings. -/
def pyIn (pat s : String) : Bool := containsChars pat.data s.data

/-- Auxiliary for `splitTab`: accumulates the current (reversed) field. -/
def splitTabAux : List Char → List Char → List (List Char)
  | [], acc => [acc.reverse]
  | c :: cs, acc =>
    if c == '\t' then acc.reverse :: splitTabAux cs []
    else splitTabAux cs (c :: acc)

/-- Python's `line.split('\t')`. -/
def splitTab (line : String) : List (List Char) := splitTabAux line.data []

/-- Digit run of a decimal literal; `none` when a non-digit occurs or when
no digit was seen at all (mirrors `int()` rejecting `""` and `"1a"`). -/
def natOfDigits : List Char → Option ℕ → Option ℕ
  | [], acc => acc
  | c :: cs, acc =>
    if c.isDigit then
      natOfDigits cs (some ((acc.getD 0) * 10 + (c.toNat - 48)))
    else none

/-- Sign handling of Python's `int()` on an already-stripped char list. -/
def parseIntChars : List Char → Option ℤ
  | '-' :: cs => (natOfDigits cs none).map (fun n => -(n : ℤ))
  | '+' :: cs => (natOfDigits cs none).map (fun n => (n : ℤ))
  | cs => (natOfDigits cs none).map (fun n => (n : ℤ))

/-- Strip leading and trailing whitespace (Python `int()` accepts it). -/
def stripWs (cs : List Char) : List Char :=
  ((cs.dropWhile Char.isWhitespace).reverse.dropWhile Char.isWhitespace).reverse

/-! ## Exceptions -/

/-- The Python exceptions the embedded code can raise.  `configError` is the
explicit `raise Exception(...)` guarding `--two_thresholds`. -/
inductive PyError where
  | nameError
  | valueError
  | indexError
  | zeroDivError
  | configError
deriving DecidableEq, Repr

instance {ε α : Type} [DecidableEq ε] [DecidableEq α] : DecidableEq (Except ε α) :=
  fun a b =>
    match a, b with
    | .ok x, .ok y =>
      if h : x = y then isTrue (by rw [h]) else isFalse (fun hh => by cases hh; exact h rfl)
    | .error x, .error y =>
      if h : x = y then isTrue (by rw [h]) else isFalse (fun hh => by cases hh; exact h rfl)
    | .ok _, .error _ => isFalse (fun hh => by cases hh)
    | .error _, .ok _ => isFalse (fun hh => by cases hh)

/-- Python's `int(line.split('\t')[i])`: `IndexError` when the field is
missing, `ValueError` when it is not an integer literal. -/
def pyIntAt (line : String) (i : ℕ) : Except PyError ℤ :=
  match (splitTab line)[i]? with
  | none => .error .indexError
  | some s =>
    match parseIntChars (stripWs s) with
    | none => .error .valueError
    | some n => .ok n

/-! ## Exact rationals built without well-founded recursion

`Rat.div` normalizes through `Nat.gcd`, which is defined by well-founded
recursion and does not reduce in the kernel.  `pyDiv` constructs the same
normalized rational through a structurally recursive gcd, so that concrete
runs of the embedded program can be checked by `decide`/`rfl`. -/

/-- Fuel-driven Euclidean gcd, structurally recursive on the fuel. -/
def gcdFuel : ℕ → ℕ → ℕ → ℕ
  | 0, _, y => y
  | _ + 1, 0, y => y
  | f + 1, x + 1, y => gcdFuel f (y % (x + 1)) (x + 1)

/-- Gcd with enough fuel to terminate. -/
def natGcd (x y : ℕ) : ℕ := gcdFuel (x + 1) x y

/-- Numerator of the normalized fraction `a / b` (sign included). -/
def pyNum (a b : ℤ) : ℤ :=
  if (a < 0) ≠ (b < 0) then -((a.natAbs / natGcd a.natAbs b.natAbs : ℕ) : ℤ)
  else ((a.natAbs / natGcd a.natAbs b.natAbs : ℕ) : ℤ)

/-- Denominator of the normalized fraction `a / b`. -/
def pyDen (a b : ℤ) : ℕ := b.natAbs / natGcd a.natAbs b.natAbs

/-- Python's float division `float(a) / float(b)`, as an exact rational in
lowest terms.  The normalization facts are established by a decidable
runtime check (using the structural `natGcd`), so the definition is
self-contained; the check always passes when `b ≠ 0` and the `else` branch
is unreachable then, while `b = 0` yields a junk value — callers raise
`ZeroDivisionError` before reaching it. -/
def pyDiv (a b : ℤ) : ℚ :=
  if h : pyDen a b ≠ 0 ∧ natGcd (pyNum a b).natAbs (pyDen a b) = 1 then
    ⟨pyNum a b, pyDen a b, h.1, by
      have hg : ∀ (f x y : ℕ), x < f → gcdFuel f x y = Nat.gcd x y := by
        intro f
        induction f with
        | zero => intro x y hxf; omega
        | succ f ih =>
          intro x y hxf
          cases x with
          | zero => simp [gcdFuel]
          | succ k =>
            rw [gcdFuel, ih (y % (k + 1)) (k + 1) (by
              have hm : y % (k + 1) < k + 1 := Nat.mod_lt y (Nat.succ_pos k)
              omega)]
            exact (Nat.gcd_rec (k + 1) y).symm
      have h2 := h.2
      unfold natGcd at h2
      rw [hg _ _ _ (Nat.lt_succ_self _)] at h2
      exact h2⟩
  else 0

/-! ## Data model -/

/-- The sex label assigned to a sample. -/
inductive Sex where
  | male
  | female
  | undetermined
deriving DecidableEq, Repr

/-- The configuration surface of the core (from the CLI collaborator):
chromosome names, optional fixed threshold, minimum-read floors,
two-threshold mode with its optional bounds.  (Plotting and file-filter
options do not reach the embedded core.) -/
structure Config where
  ychrom : String
  xchrom : String
  threshold : Option ℚ
  min_y : ℤ
  min_x : ℤ
  two_thresholds : Bool
  upper_threshold : Option ℚ
  lower_threshold : Option ℚ
deriving DecidableEq, Repr

/-- The Python locals of `main`'s per-file loop that survive from one
iteration to the next.  `nreads_*` are re-assigned to `None` at the top of
every iteration; `seqlen_*`, `ratio` and `threshold` are *not*, so they
carry the previous iteration's values (outer `none` = still unbound;
reading an unbound local raises `NameError`). -/
structure PState where
  nreads_y : Option ℤ
  nreads_x : Option ℤ
  seqlen_y : Option ℤ
  seqlen_x : Option ℤ
  ratio : Option (Option ℚ)
  threshold : Option (Option ℚ)
deriving DecidableEq, Repr

/-- One row of the output table (`data += [[sample_name, sex, nreads_ychrom,
nreads_xchrom, ratio, threshold]]`); `none` is a Python `None` cell. -/
structure Row where
  id : String
  sex : Sex
  nreads_y : Option ℤ
  nreads_x : Option ℤ
  ratio : Option ℚ
  threshold : Option ℚ
deriving DecidableEq, Repr

/-- One input stats file: sample name (file name with extension stripped)
and the lines the Python loop iterates over. -/
structure SampleFile where
  name : String
  lines : List String
deriving DecidableEq, Repr

/-- State at interpreter start: every loop-carried local is unbound. -/
def initState : PState := ⟨none, none, none, none, none, none⟩

/-- `nreads_ychrom = None; nreads_xchrom = None` at the top of each file. -/
def resetReads (st : PState) : PState := { st with nreads_y := none, nreads_x := none }

/-- The substring test of the `if args.ychrom in line:` branch. -/
def yTest (cfg : Config) (l : String) : Bool := pyIn cfg.ychrom l

/-- The effective test of the `elif args.xchrom in line:` branch (only
reached when the Y test failed). -/
def xTest (cfg : Config) (l : String) : Bool := !(pyIn cfg.ychrom l) && pyIn cfg.xchrom l

/-! ## The embedded program -/

/-- One iteration of `for line in lines:`:
```
if args.ychrom in line:
    nreads_ychrom = int(line.split('\t')[2])
    seqlen_ychrom = int(line.split('\t')[1])
elif args.xchrom in line:
    nreads_xchrom = int(line.split('\t')[2])
    seqlen_xchrom = int(line.split('\t')[1])
```
-/
def scanLine (cfg : Config) (st : PState) (line : String) : Except PyError PState :=
  if yTest cfg line then
    match pyIntAt line 2 with
    | .error e => .error e
    | .ok n =>
      match pyIntAt line 1 with
      | .error e => .error e
      | .ok s => .ok { st with nreads_y := some n, seqlen_y := some s }
  else if pyIn cfg.xchrom line then
    match pyIntAt line 2 with
    | .error e => .error e
    | .ok n =>
      match pyIntAt line 1 with
      | .error e => .error e
      | .ok s => .ok { st with nreads_x := some n, seqlen_x := some s }
  else .ok st

/-- The whole `for line in lines:` loop over one file. -/
def scanLines (cfg : Config) : PState → List String → Except PyError PState
  | st, [] => .ok st
  | st, l :: ls =>
    match scanLine cfg st l with
    | .error e => .error e
    | .ok st' => scanLines cfg st' ls

/-- `data += [[sample_name, sex, nreads_ychrom, nreads_xchrom, ratio,
threshold]]`: building the row reads `ratio` and `threshold`, raising
`NameError` if either is still unbound. -/
def mkRow (name : String) (sex : Sex) (st : PState) : Except PyError (Row × PState) :=
  match st.ratio with
  | none => .error .nameError
  | some r =>
    match st.threshold with
    | none => .error .nameError
    | some t => .ok (⟨name, sex, st.nreads_y, st.nreads_x, r, t⟩, st)

/-- The classification block of `main` (source lines 157–204), from the
`if nreads_ychrom is None or nreads_xchrom is None:` test down to the
append of the row. -/
def classify (cfg : Config) (name : String) (st : PState) : Except PyError (Row × PState) :=
  match st.nreads_y with
  | none => mkRow name .undetermined { st with ratio := some none, threshold := some none }
  | some ny =>
    match st.nreads_x with
    | none => mkRow name .undetermined { st with ratio := some none, threshold := some none }
    | some nx =>
      if ny < cfg.min_y ∨ nx < cfg.min_x then
        mkRow name .undetermined st
      else if nx = 0 then .error .zeroDivError
      else
        if cfg.two_thresholds then
          match cfg.lower_threshold with
          | none => .error .configError
          | some lo =>
            match cfg.upper_threshold with
            | none => .error .configError
            | some hi =>
              mkRow name
                (if hi < pyDiv ny nx then Sex.male
                 else if pyDiv ny nx < lo then Sex.female else Sex.undetermined)
                { st with ratio := some (some (pyDiv ny nx)) }
        else
          match cfg.threshold with
          | some t0 =>
            mkRow name (if t0 < pyDiv ny nx then Sex.male else Sex.female)
              { st with ratio := some (some (pyDiv ny nx)),
                        threshold := some (some t0) }
          | none =>
            match st.seqlen_y with
            | none => .error .nameError
            | some sy =>
              match st.seqlen_x with
              | none => .error .nameError
              | some sx =>
                if sx = 0 then .error .zeroDivError
                else
                  mkRow name (if pyDiv sy (4 * sx) < pyDiv ny nx then Sex.male else Sex.female)
                    { st with ratio := some (some (pyDiv ny nx)),
                              threshold := some (some (pyDiv sy (4 * sx))) }

/-- Processing of one accepted directory entry: reset the per-file read
counts, scan the file's lines, then classify and append the row. -/
def processFile (cfg : Config) (st : PState) (f : SampleFile) : Except PyError (Row × PState) :=
  match scanLines cfg (resetReads st) f.lines with
  | .error e => .error e
  | .ok st2 => classify cfg f.name st2

/-- The per-file loop of `main`, threading the loop-carried locals. -/
def runFiles (cfg : Config) : PState → List SampleFile → Except PyError (List Row)
  | _, [] => .ok []
  | st, f :: fs =>
    match processFile cfg st f with
    | .error e => .error e
    | .ok (row, st') =>
      match runFiles cfg st' fs with
      | .error e => .error e
      | .ok rows => .ok (row :: rows)

/-- The whole batch: all files processed starting from unbound locals.
On success the value is the ordered list of rows of `df_sexing`. -/
def runBatch (cfg : Config) (files : List SampleFile) : Except PyError (List Row) :=
  runFiles cfg initState files

/-! ## End-of-run threshold-uniformity check -/

/-- `df_sexing["threshold"].dropna()`: the defined threshold cells. -/
def thresholdVals (rows : List Row) : List ℚ := rows.filterMap Row.threshold

/-- `len(df_sexing["threshold"].dropna().unique()) == 1`: the condition
under which the code drops the `threshold` column from `sexing.txt`. -/
def dropThresholdCol (rows : List Row) : Bool := (thresholdVals rows).dedup.length == 1

/-- Modelled from the spec: the "uniform threshold across all samples" flag
as §4.3 words it — "true iff the set of distinct non-absent `threshold`
values across all results has cardinality ≤ 1".  Compared against the
code's `dropThresholdCol`. -/
def specUniformFlag (rows : List Row) : Bool := (thresholdVals rows).dedup.length ≤ 1

/-! ## Characterizing the file scan -/

/-- The last element of `ls` satisfying `p` (the scan loop overwrites on
every match, so the last matching line is the one whose stats survive). -/
def lastMatch (p : String → Bool) : List String → Option String
  | [] => none
  | l :: ls =>
    match lastMatch p ls with
    | some r => some r
    | none => if p l then some l else none

/-- The (read count, sequence length) pair a chromosome ends up with after
a scan: the parsed fields of the given matching line, or the pre-scan
values when no line matched. -/
def retainedStats (l? : Option String) (n0 s0 : Option ℤ) :
    Except PyError (Option ℤ × Option ℤ) :=
  match l? with
  | none => .ok (n0, s0)
  | some l =>
    match pyIntAt l 2 with
    | .error e => .error e
    | .ok n =>
      match pyIntAt l 1 with
      | .error e => .error e
      | .ok s => .ok (some n, some s)

/-! ## Concrete inputs used in counterexamples and witnesses -/

/-- Single-threshold run, auto threshold, `--min_y 1 --min_x 1`. -/
def cfgMin1 : Config := ⟨"chrY", "chrX", none, 1, 1, false, none, none⟩

/-- A healthy stats file: 50 reads on Y (length 1000), 5 on X (length 2000). -/
def fileOk : SampleFile := ⟨"s1", ["chrY\t1000\t50\t0", "chrX\t2000\t5\t0"]⟩

/-- A file whose Y read count 0 is below the floor `min_y = 1`. -/
def fileLowY : SampleFile := ⟨"s2", ["chrY\t1000\t0\t0", "chrX\t2000\t5\t0"]⟩

/-- A file matching neither configured chromosome name. -/
def fileNoMatch : SampleFile := ⟨"u", ["chr1\t100\t5\t0"]⟩

/-- A file with two Y-matching lines carrying different read counts. -/
def fileTwoY : SampleFile := ⟨"t", ["chrY\t100\t7\t0", "chrY_KI270740v1_random\t50\t9\t0"]⟩

/-- A file with Y/X read counts 10 and 5, hence ratio 2. -/
def fileRatio2 : SampleFile := ⟨"s", ["chrY\t100\t10\t0", "chrX\t100\t5\t0"]⟩

/-- The row `fileOk` produces under `cfgMin1`. -/
def rowOkA : Row := ⟨"s1", .male, some 50, some 5, some (pyDiv 50 5), some (pyDiv 1000 8000)⟩

/-- The row `fileLowY` produces under `cfgMin1` right after `fileOk`:
undetermined, yet carrying the previous sample's ratio and threshold. -/
def rowStaleA : Row := ⟨"s2", .undetermined, some 0, some 5, some (pyDiv 50 5), some (pyDiv 1000 8000)⟩

/-- Two-threshold run with the lower bound left unset. -/
def cfgTwoMissing : Config := ⟨"chrY", "chrX", none, 0, 1, true, some 1, none⟩

/-- Two-threshold run with upper bound 1 *below* lower bound 3. -/
def cfgInverted : Config := ⟨"chrY", "chrX", none, 0, 1, true, some 1, some 3⟩

/-- Two-threshold run with lower bound 1 and upper bound 2. -/
def cfgTwoOk : Config := ⟨"chrY", "chrX", none, 0, 1, true, some 2, some 1⟩

/-- Configuration whose X name `"chr"` is a substring of its Y name `"chrY"`,
so one line can contain both names. -/
def cfgOverlap : Config := ⟨"chrY", "chr", none, 0, 1, false, none, none⟩

/-- The single row of the batch `[fileNoMatch]`: no threshold defined. -/
def rowsNoThreshold : List Row := [⟨"u", .undetermined, none, none, none, none⟩]

/-! ## Arithmetic facts about the executable rationals -/

theorem gcdFuel_eq_gcd : ∀ (f x y : ℕ), x < f → gcdFuel f x y = Nat.gcd x y := by
  intro f
  induction f with
  | zero => intro x y h; omega
  | succ f ih =>
    intro x y h
    cases x with
    | zero => simp [gcdFuel]
    | succ k =>
      rw [gcdFuel, ih (y % (k + 1)) (k + 1) (by
        have hm : y % (k + 1) < k + 1 := Nat.mod_lt y (Nat.succ_pos k)
        omega)]
      exact (Nat.gcd_rec (k + 1) y).symm

theorem natGcd_eq_gcd (x y : ℕ) : natGcd x y = Nat.gcd x y :=
  gcdFuel_eq_gcd (x + 1) x y (Nat.lt_succ_self x)

theorem pyNum_natAbs (a b : ℤ) : (pyNum a b).natAbs = a.natAbs / natGcd a.natAbs b.natAbs := by
  unfold pyNum
  by_cases hc : (a < 0) ≠ (b < 0)
  · rw [if_pos hc, Int.natAbs_neg, Int.natAbs_ofNat]
  · rw [if_neg hc, Int.natAbs_ofNat]

theorem pyDen_nz (a b : ℤ) (hb : b.natAbs ≠ 0) : pyDen a b ≠ 0 := by
  unfold pyDen
  rw [natGcd_eq_gcd]
  have hgpos : 0 < Nat.gcd a.natAbs b.natAbs :=
    Nat.gcd_pos_of_pos_right a.natAbs (Nat.pos_of_ne_zero hb)
  exact Nat.ne_of_gt
    (Nat.div_pos (Nat.le_of_dvd (Nat.pos_of_ne_zero hb) (Nat.gcd_dvd_right _ _)) hgpos)

theorem py_reduced (a b : ℤ) (hb : b.natAbs ≠ 0) : (pyNum a b).natAbs.Coprime (pyDen a b) := by
  rw [pyNum_natAbs]
  unfold pyDen
  rw [natGcd_eq_gcd]
  exact Nat.coprime_div_gcd_div_gcd
    (Nat.gcd_pos_of_pos_right a.natAbs (Nat.pos_of_ne_zero hb))

theorem pyNum_mul_eq (a b : ℤ) (hb : b ≠ 0) : pyNum a b * b = a * (pyDen a b : ℤ) := by
  have hnb : b.natAbs ≠ 0 := Int.natAbs_ne_zero.mpr hb
  have hgpos : 0 < natGcd a.natAbs b.natAbs := by
    rw [natGcd_eq_gcd]
    exact Nat.gcd_pos_of_pos_right a.natAbs (Nat.pos_of_ne_zero hnb)
  obtain ⟨na, hna⟩ : natGcd a.natAbs b.natAbs ∣ a.natAbs := by
    rw [natGcd_eq_gcd]; exact Nat.gcd_dvd_left _ _
  obtain ⟨nb, hnb'⟩ : natGcd a.natAbs b.natAbs ∣ b.natAbs := by
    rw [natGcd_eq_gcd]; exact Nat.gcd_dvd_right _ _
  set g := natGcd a.natAbs b.natAbs with hgdef
  have hdy : a.natAbs / g = na := by rw [hna]; exact Nat.mul_div_cancel_left na hgpos
  have hdx : b.natAbs / g = nb := by rw [hnb']; exact Nat.mul_div_cancel_left nb hgpos
  have hacast : ((a.natAbs : ℤ)) = (g : ℤ) * na := by exact_mod_cast hna
  have hbcast : ((b.natAbs : ℤ)) = (g : ℤ) * nb := by exact_mod_cast hnb'
  unfold pyNum pyDen
  rw [← hgdef, hdy, hdx]
  by_cases ha : a < 0 <;> by_cases hbn : b < 0
  · rw [if_neg (by simp [ha, hbn])]
    have ea : ((a.natAbs : ℤ)) = -a := Int.ofNat_natAbs_of_nonpos (le_of_lt ha)
    have eb : ((b.natAbs : ℤ)) = -b := Int.ofNat_natAbs_of_nonpos (le_of_lt hbn)
    have ha' : a = -((g : ℤ) * na) := by rw [← hacast, ea, neg_neg]
    have hb' : b = -((g : ℤ) * nb) := by rw [← hbcast, eb, neg_neg]
    rw [ha', hb']; ring
  · rw [if_pos (by simp [ha, hbn])]
    have ea : ((a.natAbs : ℤ)) = -a := Int.ofNat_natAbs_of_nonpos (le_of_lt ha)
    have ha' : a = -((g : ℤ) * na) := by rw [← hacast, ea, neg_neg]
    have hb' : b = (g : ℤ) * nb := by rw [← hbcast, Int.natAbs_of_nonneg (not_lt.mp hbn)]
    rw [ha', hb']; ring
  · rw [if_pos (by simp [ha, hbn])]
    have ha' : a = (g : ℤ) * na := by rw [← hacast, Int.natAbs_of_nonneg (not_lt.mp ha)]
    have eb : ((b.natAbs : ℤ)) = -b := Int.ofNat_natAbs_of_nonpos (le_of_lt hbn)
    have hb' : b = -((g : ℤ) * nb) := by rw [← hbcast, eb, neg_neg]
    rw [ha', hb']; ring
  · rw [if_neg (by simp [ha, hbn])]
    have ha' : a = (g : ℤ) * na := by rw [← hacast, Int.natAbs_of_nonneg (not_lt.mp ha)]
    have hb' : b = (g : ℤ) * nb := by rw [← hbcast, Int.natAbs_of_nonneg (not_lt.mp hbn)]
    rw [ha', hb']; ring

/-- `pyDiv` agrees with rational division whenever the divisor is nonzero:
the bridge from the executable normalized fractions to `ℚ` arithmetic. -/
theorem pyDiv_eq (a b : ℤ) (hb : b ≠ 0) : pyDiv a b = (a : ℚ) / (b : ℚ) := by
  have hnb : b.natAbs ≠ 0 := Int.natAbs_ne_zero.mpr hb
  have hchk : pyDen a b ≠ 0 ∧ natGcd (pyNum a b).natAbs (pyDen a b) = 1 :=
    ⟨pyDen_nz a b hnb, by rw [natGcd_eq_gcd]; exact py_reduced a b hnb⟩
  rw [pyDiv, dif_pos hchk, Rat.mk'_eq_divInt, Rat.divInt_eq_div]
  have hden : ((pyDen a b : ℤ) : ℚ) ≠ 0 := by
    exact_mod_cast fun h => pyDen_nz a b hnb (by exact_mod_cast h)
  have hbq : (b : ℚ) ≠ 0 := by exact_mod_cast hb
  rw [div_eq_div_iff hden hbq]
  exact_mod_cast pyNum_mul_eq a b hb

/-- The automatically derived threshold, as the code computes it
(`float(seqlen_ychrom) * 0.25 / float(seqlen_xchrom)`), written with the
spec's formula. -/
theorem pyDiv_quarter (sy sx : ℤ) (hsx : sx ≠ 0) :
    pyDiv sy (4 * sx) = (sy : ℚ) * (1 / 4) / (sx : ℚ) := by
  rw [pyDiv_eq sy (4 * sx) (mul_ne_zero (by norm_num) hsx)]
  have hsxq : (sx : ℚ) ≠ 0 := by exact_mod_cast hsx
  push_cast
  field_simp

/-! ## Facts about the scan -/

theorem retainedStats_none (n0 s0 : Option ℤ) : retainedStats none n0 s0 = .ok (n0, s0) := rfl

theorem retainedStats_some (l : String) (n0 s0 : Option ℤ) (n s : ℤ)
    (h2 : pyIntAt l 2 = .ok n) (h1 : pyIntAt l 1 = .ok s) :
    retainedStats (some l) n0 s0 = .ok (some n, some s) := by
  have hu : retainedStats (some l) n0 s0 =
      (match pyIntAt l 2 with
       | .error e => .error e
       | .ok n =>
         match pyIntAt l 1 with
         | .error e => .error e
         | .ok s => .ok (some n, some s)) := rfl
  rw [hu, h2, h1]

theorem scanLine_char (cfg : Config) (st : PState) (line : String) (st' : PState)
    (h : scanLine cfg st line = .ok st') :
    (∃ n s, yTest cfg line = true ∧ pyIntAt line 2 = .ok n ∧ pyIntAt line 1 = .ok s ∧
        st' = { st with nreads_y := some n, seqlen_y := some s }) ∨
    (∃ n s, yTest cfg line = false ∧ pyIn cfg.xchrom line = true ∧
        pyIntAt line 2 = .ok n ∧ pyIntAt line 1 = .ok s ∧
        st' = { st with nreads_x := some n, seqlen_x := some s }) ∨
    (yTest cfg line = false ∧ pyIn cfg.xchrom line = false ∧ st' = st) := by
  unfold scanLine at h
  by_cases hy : yTest cfg line
  · rw [if_pos hy] at h
    left
    cases h2 : pyIntAt line 2 with
    | error e => rw [h2] at h; cases h
    | ok n =>
      rw [h2] at h
      cases h1 : pyIntAt line 1 with
      | error e => rw [h1] at h; cases h
      | ok s =>
        rw [h1] at h
        exact ⟨n, s, hy, rfl, rfl, by cases h; rfl⟩
  · rw [if_neg hy] at h
    by_cases hx : pyIn cfg.xchrom line
    · rw [if_pos hx] at h
      right; left
      cases h2 : pyIntAt line 2 with
      | error e => rw [h2] at h; cases h
      | ok n =>
        rw [h2] at h
        cases h1 : pyIntAt line 1 with
        | error e => rw [h1] at h; cases h
        | ok s =>
          rw [h1] at h
          exact ⟨n, s, by simpa using hy, hx, rfl, rfl, by cases h; rfl⟩
    · rw [if_neg hx] at h
      exact Or.inr (Or.inr ⟨by simpa using hy, by simpa using hx, by cases h; rfl⟩)

theorem lastMatch_cons_some (p : String → Bool) (l : String) (ls : List String) (r : String)
    (h : lastMatch p ls = some r) : lastMatch p (l :: ls) = some r := by
  rw [lastMatch, h]

theorem lastMatch_cons_none (p : String → Bool) (l : String) (ls : List String)
    (h : lastMatch p ls = none) : lastMatch p (l :: ls) = if p l then some l else none := by
  rw [lastMatch, h]

theorem scanLines_y_retained (cfg : Config) (lines : List String) :
    ∀ (st0 st' : PState), scanLines cfg st0 lines = .ok st' →
      retainedStats (lastMatch (yTest cfg) lines) st0.nreads_y st0.seqlen_y =
        .ok (st'.nreads_y, st'.seqlen_y) := by
  induction lines with
  | nil =>
    intro st0 st' h
    rw [scanLines] at h
    cases h
    rfl
  | cons l ls ih =>
    intro st0 st' h
    rw [scanLines] at h
    cases hsl : scanLine cfg st0 l with
    | error e => rw [hsl] at h; cases h
    | ok st1 =>
      rw [hsl] at h
      have IH := ih st1 st' h
      cases hlm : lastMatch (yTest cfg) ls with
      | some r =>
        rw [lastMatch_cons_some _ _ _ _ hlm]
        rw [hlm] at IH
        exact IH
      | none =>
        rw [lastMatch_cons_none _ _ _ hlm]
        rw [hlm, retainedStats_none] at IH
        rcases scanLine_char cfg st0 l st1 hsl with
          ⟨n, s, hy, h2, h1, hst⟩ | ⟨n, s, hy, hx, h2, h1, hst⟩ | ⟨hy, hx, hst⟩
        · rw [hy, if_pos rfl, retainedStats_some l _ _ n s h2 h1]
          rw [hst] at IH
          exact IH
        · rw [hy, if_neg Bool.false_ne_true, retainedStats_none]
          rw [hst] at IH
          exact IH
        · rw [hy, if_neg Bool.false_ne_true, retainedStats_none]
          rw [hst] at IH
          exact IH

theorem scanLines_x_retained (cfg : Config) (lines : List String) :
    ∀ (st0 st' : PState), scanLines cfg st0 lines = .ok st' →
      retainedStats (lastMatch (xTest cfg) lines) st0.nreads_x st0.seqlen_x =
        .ok (st'.nreads_x, st'.seqlen_x) := by
  induction lines with
  | nil =>
    intro st0 st' h
    rw [scanLines] at h
    cases h
    rfl
  | cons l ls ih =>
    intro st0 st' h
    rw [scanLines] at h
    cases hsl : scanLine cfg st0 l with
    | error e => rw [hsl] at h; cases h
    | ok st1 =>
      rw [hsl] at h
      have IH := ih st1 st' h
      cases hlm : lastMatch (xTest cfg) ls with
      | some r =>
        rw [lastMatch_cons_some _ _ _ _ hlm]
        rw [hlm] at IH
        exact IH
      | none =>
        rw [lastMatch_cons_none _ _ _ hlm]
        rw [hlm, retainedStats_none] at IH
        rcases scanLine_char cfg st0 l st1 hsl with
          ⟨n, s, hy, h2, h1, hst⟩ | ⟨n, s, hy, hx, h2, h1, hst⟩ | ⟨hy, hx, hst⟩
        · have hxt : xTest cfg l = false := by
            unfold yTest at hy
            unfold xTest
            rw [hy]
            rfl
          rw [hxt, if_neg Bool.false_ne_true, retainedStats_none]
          rw [hst] at IH
          exact IH
        · have hxt : xTest cfg l = true := by
            unfold yTest at hy
            unfold xTest
            rw [hy, hx]
            rfl
          rw [hxt, if_pos rfl, retainedStats_some l _ _ n s h2 h1]
          rw [hst] at IH
          exact IH
        · have hxt : xTest cfg l = false := by
            unfold yTest at hy
            unfold xTest
            rw [hy, hx]
            rfl
          rw [hxt, if_neg Bool.false_ne_true, retainedStats_none]
          rw [hst] at IH
          exact IH

/-! ## Characterizing the classification -/

theorem mkRow_ok (name : String) (sex : Sex) (st : PState) (r t : Option ℚ)
    (hr : st.ratio = some r) (ht : st.threshold = some t) :
    mkRow name sex st = .ok (⟨name, sex, st.nreads_y, st.nreads_x, r, t⟩, st) := by
  unfold mkRow
  rw [hr, ht]

/-- The classification path in single-threshold mode with an automatically
derived threshold, for a sample whose ratio is computed. -/
theorem classify_single_auto (cfg : Config) (name : String) (st : PState)
    (ny nx sy sx : ℤ)
    (hm : cfg.two_thresholds = false) (ht : cfg.threshold = none)
    (hy : st.nreads_y = some ny) (hx : st.nreads_x = some nx)
    (hfloor : ¬(ny < cfg.min_y ∨ nx < cfg.min_x)) (hnx : ¬ nx = 0)
    (hsy : st.seqlen_y = some sy) (hsx : st.seqlen_x = some sx) (hsx0 : ¬ sx = 0) :
    classify cfg name st =
      .ok (⟨name, if pyDiv sy (4 * sx) < pyDiv ny nx then .male else .female,
            some ny, some nx, some (pyDiv ny nx), some (pyDiv sy (4 * sx))⟩,
           { st with ratio := some (some (pyDiv ny nx)),
                     threshold := some (some (pyDiv sy (4 * sx))) }) := by
  simp only [classify, hy, hx]
  rw [if_neg hfloor, if_neg hnx, hm]
  simp only [Bool.false_eq_true, if_false, ht, hsy, hsx]
  rw [if_neg hsx0]
  rw [mkRow_ok _ _ _ (some (pyDiv ny nx)) (some (pyDiv sy (4 * sx))) rfl rfl]

/-- The classification path in single-threshold mode with a fixed
configured threshold, for a sample whose ratio is computed. -/
theorem classify_single_fixed (cfg : Config) (name : String) (st : PState)
    (ny nx : ℤ) (t0 : ℚ)
    (hm : cfg.two_thresholds = false) (ht : cfg.threshold = some t0)
    (hy : st.nreads_y = some ny) (hx : st.nreads_x = some nx)
    (hfloor : ¬(ny < cfg.min_y ∨ nx < cfg.min_x)) (hnx : ¬ nx = 0) :
    classify cfg name st =
      .ok (⟨name, if t0 < pyDiv ny nx then .male else .female,
            some ny, some nx, some (pyDiv ny nx), some t0⟩,
           { st with ratio := some (some (pyDiv ny nx)),
                     threshold := some (some t0) }) := by
  simp only [classify, hy, hx]
  rw [if_neg hfloor, if_neg hnx, hm]
  simp only [Bool.false_eq_true, if_false, ht]
  rw [mkRow_ok _ _ _ (some (pyDiv ny nx)) (some t0) rfl rfl]

/-- The classification path in two-threshold mode with both bounds
configured, for a sample whose ratio is computed.  The `threshold` local is
never assigned on this path, so the row only forms when it was already
bound (`hth`), and the cell receives that stale content `tprev`. -/
theorem classify_two (cfg : Config) (name : String) (st : PState)
    (ny nx : ℤ) (lo hi : ℚ) (tprev : Option ℚ)
    (hm : cfg.two_thresholds = true)
    (hlo : cfg.lower_threshold = some lo) (hhi : cfg.upper_threshold = some hi)
    (hy : st.nreads_y = some ny) (hx : st.nreads_x = some nx)
    (hfloor : ¬(ny < cfg.min_y ∨ nx < cfg.min_x)) (hnx : ¬ nx = 0)
    (hth : st.threshold = some tprev) :
    classify cfg name st =
      .ok (⟨name,
            if hi < pyDiv ny nx then .male
            else if pyDiv ny nx < lo then .female else .undetermined,
            some ny, some nx, some (pyDiv ny nx), tprev⟩,
           { st with ratio := some (some (pyDiv ny nx)) }) := by
  simp only [classify, hy, hx]
  rw [if_neg hfloor, if_neg hnx, hm]
  simp only [if_true, hlo, hhi]
  exact mkRow_ok name _ _ _ tprev rfl hth

/-- The missing-chromosome branch: both `ratio` and `threshold` are
(re)bound to `None`, the row always forms. -/
theorem classify_missing (cfg : Config) (name : String) (st : PState)
    (h : st.nreads_y = none ∨ st.nreads_x = none) :
    classify cfg name st =
      .ok (⟨name, .undetermined, st.nreads_y, st.nreads_x, none, none⟩,
           { st with ratio := some none, threshold := some none }) := by
  rcases h with h | h
  · simp only [classify, h]
    exact mkRow_ok name _ _ none none rfl rfl
  · cases hy : st.nreads_y with
    | none =>
      simp only [classify, hy]
      exact mkRow_ok name _ _ none none rfl rfl
    | some ny =>
      simp only [classify, hy, h]
      exact mkRow_ok name _ _ none none rfl rfl

/-- The minimum-read-count branch: the row is built from the state *as
carried over*, with `ratio` and `threshold` untouched. -/
theorem classify_floor (cfg : Config) (name : String) (st : PState) (ny nx : ℤ)
    (hy : st.nreads_y = some ny) (hx : st.nreads_x = some nx)
    (hfloor : ny < cfg.min_y ∨ nx < cfg.min_x) :
    classify cfg name st = mkRow name .undetermined st := by
  simp only [classify, hy, hx]
  rw [if_pos hfloor]

theorem mkRow_ne_config (name : String) (sex : Sex) (st : PState) :
    mkRow name sex st ≠ .error .configError := by
  unfold mkRow
  cases st.ratio with
  | none => intro h; cases h
  | some r =>
    cases st.threshold with
    | none => intro h; cases h
    | some t => intro h; cases h

theorem pyIntAt_ne_config (line : String) (i : ℕ) :
    pyIntAt line i ≠ .error .configError := by
  intro h
  unfold pyIntAt at h
  split at h
  · cases h
  · split at h
    · cases h
    · cases h

theorem scanLine_ne_config (cfg : Config) (st : PState) (line : String) :
    scanLine cfg st line ≠ .error .configError := by
  unfold scanLine
  by_cases hy : yTest cfg line
  · rw [if_pos hy]
    cases h2 : pyIntAt line 2 with
    | error e =>
      intro h
      injection h with h'
      exact pyIntAt_ne_config line 2 (h2.trans (by rw [h']))
    | ok n =>
      cases h1 : pyIntAt line 1 with
      | error e =>
        intro h
        injection h with h'
        exact pyIntAt_ne_config line 1 (h1.trans (by rw [h']))
      | ok s => intro h; cases h
  · rw [if_neg hy]
    by_cases hx : pyIn cfg.xchrom line
    · rw [if_pos hx]
      cases h2 : pyIntAt line 2 with
      | error e =>
        intro h
        injection h with h'
        exact pyIntAt_ne_config line 2 (h2.trans (by rw [h']))
      | ok n =>
        cases h1 : pyIntAt line 1 with
        | error e =>
          intro h
          injection h with h'
          exact pyIntAt_ne_config line 1 (h1.trans (by rw [h']))
        | ok s => intro h; cases h
    · rw [if_neg hx]
      intro h
      cases h

theorem scanLines_ne_config (cfg : Config) (lines : List String) :
    ∀ st : PState, scanLines cfg st lines ≠ .error .configError := by
  induction lines with
  | nil => intro st h; cases h
  | cons l ls ih =>
    intro st
    rw [scanLines]
    cases hsl : scanLine cfg st l with
    | error e =>
      intro h
      injection h with h'
      exact scanLine_ne_config cfg st l (hsl.trans (by rw [h']))
    | ok st1 => exact ih st1

theorem retainedStats_ok_some (l : String) (n0 s0 : Option ℤ) (p : Option ℤ × Option ℤ)
    (h : retainedStats (some l) n0 s0 = .ok p) :
    ∃ n s, pyIntAt l 2 = .ok n ∧ pyIntAt l 1 = .ok s ∧ p = (some n, some s) := by
  have hu : retainedStats (some l) n0 s0 =
      (match pyIntAt l 2 with
       | .error e => .error e
       | .ok n =>
         match pyIntAt l 1 with
         | .error e => .error e
         | .ok s => .ok (some n, some s)) := rfl
  rw [hu] at h
  cases h2 : pyIntAt l 2 with
  | error e => rw [h2] at h; cases h
  | ok n =>
    rw [h2] at h
    cases h1 : pyIntAt l 1 with
    | error e => rw [h1] at h; cases h
    | ok s =>
      rw [h1] at h
      injection h with h'
      exact ⟨n, s, rfl, rfl, h'.symm⟩

/-- In two-threshold mode with a missing bound, `classify` raises the
configuration error exactly when the sample reaches the ratio computation:
both read counts found, floors met, and the X count nonzero. -/
theorem classify_config_iff (cfg : Config) (name : String) (st : PState)
    (hm : cfg.two_thresholds = true)
    (hb : cfg.lower_threshold = none ∨ cfg.upper_threshold = none) :
    classify cfg name st = .error .configError ↔
      ∃ ny nx, st.nreads_y = some ny ∧ st.nreads_x = some nx ∧
        ¬(ny < cfg.min_y ∨ nx < cfg.min_x) ∧ nx ≠ 0 := by
  constructor
  · intro h
    cases hy : st.nreads_y with
    | none =>
      rw [classify_missing cfg name st (Or.inl hy)] at h
      cases h
    | some ny =>
      cases hx : st.nreads_x with
      | none =>
        rw [classify_missing cfg name st (Or.inr hx)] at h
        cases h
      | some nx =>
        by_cases hfloor : ny < cfg.min_y ∨ nx < cfg.min_x
        · rw [classify_floor cfg name st ny nx hy hx hfloor] at h
          exact absurd h (mkRow_ne_config name .undetermined st)
        · by_cases hnx : nx = 0
          · have hz : classify cfg name st = .error .zeroDivError := by
              simp only [classify, hy, hx]
              rw [if_neg hfloor, if_pos hnx]
            rw [hz] at h
            cases h
          · exact ⟨ny, nx, rfl, rfl, hfloor, hnx⟩
  · rintro ⟨ny, nx, hy, hx, hfloor, hnx⟩
    simp only [classify, hy, hx]
    rw [if_neg hfloor, if_neg hnx, hm, if_pos rfl]
    rcases hb with hb | hb
    · simp only [hb]
    · cases hlo : cfg.lower_threshold with
      | none => simp only [hlo]
      | some lo => simp only [hlo, hb]

/-! ## The claims -/

/-- C1: the claim states that a SampleResult's `ratio` cell is present iff
both read counts were found and meet their floors — in particular absent
when a floor fails.  The code violates this: the loop local `ratio` is not
reset in the minimum-count branch, so after `fileOk` computes ratio 10,
`fileLowY` fails the `min_y = 1` floor (its Y count is 0) yet its row
carries the stale, present ratio 10. -/
theorem C1_stale_ratio_eval :
    runBatch cfgMin1 [fileOk, fileLowY] = .ok [rowOkA, rowStaleA] ∧
    rowStaleA.nreads_y = some 0 ∧ cfgMin1.min_y = 1 ∧
    rowStaleA.ratio = some 10 := by decide

/-- C2: the claim states that the `threshold` cell is present only when the
sample's own ratio was computed.  The code violates this the same way: the
row of `fileLowY` (floor failed, no ratio computed for it) carries the
stale threshold 1/8 computed for `fileOk`. -/
theorem C2_stale_threshold_eval :
    runBatch cfgMin1 [fileOk, fileLowY] = .ok [rowOkA, rowStaleA] ∧
    rowStaleA.sex = .undetermined ∧
    rowStaleA.threshold = some ((1 : ℚ) / 8) := by
  refine ⟨by decide, by decide, ?_⟩
  show some (pyDiv 1000 8000) = some ((1 : ℚ) / 8)
  rw [pyDiv_eq 1000 8000 (by norm_num)]
  norm_num

/-- C4: the claim states a per-sample failure never aborts the batch.  The
code violates it: when the *first* processed sample fails the minimum-count
floor, the row construction reads the still-unbound local `ratio` and the
whole batch dies with a `NameError`, emitting no row at all. -/
theorem C4_floor_failure_aborts_eval :
    runBatch cfgMin1 [fileLowY] = .error .nameError := by decide

/-- C3 counterexample: both lines of `fileTwoY` contain `"chrY"`; the first
matching line has read count 7, but the scan retains count 9 and length 50
from the *second* (last) matching line, so the first match does not win and
later matching lines do change the retained stats. -/
theorem C3_counterexample :
    yTest cfgMin1 "chrY\t100\t7\t0" = true ∧
    pyIntAt "chrY\t100\t7\t0" 2 = .ok 7 ∧
    yTest cfgMin1 "chrY_KI270740v1_random\t50\t9\t0" = true ∧
    scanLines cfgMin1 initState fileTwoY.lines =
      .ok ⟨some 9, none, some 50, none, none, none⟩ ∧
    (9 : ℤ) ≠ 7 := by decide

/-- C3 (amended): the ChromStats retained for the Y chromosome (and
likewise for X) come from the **last** line of the file matching that
chromosome's test — each matching line overwrites the previous values — and
when no line matches, the pre-scan values survive. -/
theorem C3_last_match_wins (cfg : Config) (lines : List String) (st0 st' : PState)
    (h : scanLines cfg st0 lines = .ok st') :
    retainedStats (lastMatch (yTest cfg) lines) st0.nreads_y st0.seqlen_y =
      .ok (st'.nreads_y, st'.seqlen_y) ∧
    retainedStats (lastMatch (xTest cfg) lines) st0.nreads_x st0.seqlen_x =
      .ok (st'.nreads_x, st'.seqlen_x) :=
  ⟨scanLines_y_retained cfg lines st0 st' h, scanLines_x_retained cfg lines st0 st' h⟩

theorem C3_witness :
    retainedStats (lastMatch (yTest cfgMin1) fileOk.lines)
        initState.nreads_y initState.seqlen_y = .ok (some 50, some 1000) ∧
    retainedStats (lastMatch (xTest cfgMin1) fileOk.lines)
        initState.nreads_x initState.seqlen_x = .ok (some 5, some 2000) :=
  C3_last_match_wins cfgMin1 fileOk.lines initState
    ⟨some 50, some 5, some 1000, some 2000, none, none⟩ (by decide)

/-- C5 counterexample: a two-threshold run with `lower_threshold` unset
does *not* raise the configuration error when no sample reaches the ratio
computation — here the only file matches neither chromosome name, the batch
completes and emits its row. -/
theorem C5_counterexample :
    cfgTwoMissing.two_thresholds = true ∧
    cfgTwoMissing.lower_threshold = none ∧
    runBatch cfgTwoMissing [fileNoMatch] =
      .ok [⟨"u", .undetermined, none, none, none, none⟩] := by decide

/-- C5 (amended): in two-threshold mode with a bound unset, processing a
file raises the ConfigurationError **iff that sample's ratio computation is
reached** (both chromosomes matched, floors met, X count nonzero); when it
is raised, no row is produced for the file.  Runs in which no sample
reaches classification complete normally. -/
theorem C5_config_error_iff (cfg : Config) (st : PState) (f : SampleFile)
    (hm : cfg.two_thresholds = true)
    (hb : cfg.lower_threshold = none ∨ cfg.upper_threshold = none) :
    processFile cfg st f = .error .configError ↔
      ∃ st2 ny nx, scanLines cfg (resetReads st) f.lines = .ok st2 ∧
        st2.nreads_y = some ny ∧ st2.nreads_x = some nx ∧
        ¬(ny < cfg.min_y ∨ nx < cfg.min_x) ∧ nx ≠ 0 := by
  cases hscan : scanLines cfg (resetReads st) f.lines with
  | error e =>
    have hpf : processFile cfg st f = .error e := by
      unfold processFile
      rw [hscan]
    rw [hpf]
    constructor
    · intro h
      injection h with h'
      exact absurd (hscan.trans (by rw [h']))
        (scanLines_ne_config cfg f.lines (resetReads st))
    · rintro ⟨st2, ny, nx, h2, _⟩
      cases h2
  | ok st2 =>
    have hpf : processFile cfg st f = classify cfg f.name st2 := by
      unfold processFile
      rw [hscan]
    rw [hpf]
    constructor
    · intro h
      obtain ⟨ny, nx, hy, hx, hfl, hnx⟩ := (classify_config_iff cfg f.name st2 hm hb).mp h
      exact ⟨st2, ny, nx, rfl, hy, hx, hfl, hnx⟩
    · rintro ⟨st2', ny, nx, h2, hy, hx, hfl, hnx⟩
      injection h2 with h2'
      subst h2'
      exact (classify_config_iff cfg f.name st2 hm hb).mpr ⟨ny, nx, hy, hx, hfl, hnx⟩

theorem C5_witness :
    processFile cfgTwoMissing initState fileRatio2 = .error .configError :=
  (C5_config_error_iff cfgTwoMissing initState fileRatio2 rfl (Or.inl rfl)).mpr
    ⟨⟨some 10, some 5, some 100, some 100, none, none⟩, 10, 5,
      by decide, rfl, rfl, by decide, by decide⟩

/-- C6 counterexample: in a batch whose rows have **zero** defined
threshold values, the spec's flag (cardinality ≤ 1) is true, yet the code
keeps the `threshold` column (its test is `len(...) == 1`, which is false
for cardinality 0) — so the column is not omitted exactly when the spec's
flag is true. -/
theorem C6_counterexample :
    runBatch cfgMin1 [fileNoMatch] = .ok rowsNoThreshold ∧
    specUniformFlag rowsNoThreshold = true ∧
    dropThresholdCol rowsNoThreshold = false := by decide

/-- C6 (amended): the `threshold` column is dropped iff the batch has
**exactly one** distinct defined threshold value — a batch with none at all
(cardinality 0) keeps the column. -/
theorem C6_uniform_iff (rows : List Row) :
    dropThresholdCol rows = true ↔
      ∃ t : ℚ, thresholdVals rows ≠ [] ∧ ∀ u ∈ thresholdVals rows, u = t := by
  unfold dropThresholdCol
  rw [beq_iff_eq, List.length_eq_one]
  constructor
  · rintro ⟨a, ha⟩
    refine ⟨a, ?_, ?_⟩
    · intro hnil
      rw [hnil] at ha
      simp at ha
    · intro u hu
      have hm : u ∈ (thresholdVals rows).dedup := List.mem_dedup.mpr hu
      rw [ha] at hm
      simpa using hm
  · rintro ⟨t, hne, hall⟩
    have hallD : ∀ u ∈ (thresholdVals rows).dedup, u = t :=
      fun u hu => hall u (List.mem_dedup.mp hu)
    have hdne : (thresholdVals rows).dedup ≠ [] := by
      intro h0
      exact hne ((List.dedup_eq_nil _).mp h0)
    have hnd : (thresholdVals rows).dedup.Nodup := List.nodup_dedup _
    cases hD : (thresholdVals rows).dedup with
    | nil => exact absurd hD hdne
    | cons a as =>
      cases as with
      | nil => exact ⟨a, rfl⟩
      | cons b bs =>
        exfalso
        rw [hD] at hnd
        have hat : a = t := hallD a (by rw [hD]; exact List.mem_cons_self a _)
        have hbt : b = t := hallD b (by rw [hD]; exact List.mem_cons_of_mem a (List.mem_cons_self b _))
        rw [List.nodup_cons] at hnd
        exact hnd.1 (by rw [hat, ← hbt]; exact List.mem_cons_self b _)

/-- C7: in single-threshold mode, for every sample whose ratio is computed
(both counts found and floors met — the spec's notion of "ratio defined"),
the row's threshold cell holds the threshold used, the ratio cell holds
`nreads_y / nreads_x`, and the decision is `male ⟺ ratio > threshold_used`,
with everything else (ties included) `female`; never `undetermined`. -/
theorem C7_single_mode_decision (cfg : Config) (name : String) (st : PState)
    (ny nx : ℤ) (row : Row) (st' : PState)
    (hm : cfg.two_thresholds = false)
    (hy : st.nreads_y = some ny) (hx : st.nreads_x = some nx)
    (hfloor : ¬(ny < cfg.min_y ∨ nx < cfg.min_x))
    (hc : classify cfg name st = .ok (row, st')) :
    ∃ t r : ℚ, row.threshold = some t ∧ row.ratio = some r ∧
      r = (ny : ℚ) / (nx : ℚ) ∧
      (row.sex = .male ↔ t < r) ∧
      (row.sex = .female ↔ ¬ t < r) ∧
      row.sex ≠ .undetermined := by
  by_cases hnx : nx = 0
  · exfalso
    have hz : classify cfg name st = .error .zeroDivError := by
      simp only [classify, hy, hx]
      rw [if_neg hfloor, if_pos hnx]
    rw [hz] at hc
    cases hc
  · cases ht : cfg.threshold with
    | some t0 =>
      rw [classify_single_fixed cfg name st ny nx t0 hm ht hy hx hfloor hnx] at hc
      injection hc with hc'
      have hrow : row = ⟨name, if t0 < pyDiv ny nx then .male else .female,
          some ny, some nx, some (pyDiv ny nx), some t0⟩ := (congrArg Prod.fst hc').symm
      subst hrow
      refine ⟨t0, pyDiv ny nx, rfl, rfl, pyDiv_eq ny nx hnx, ?_, ?_, ?_⟩
      · by_cases hlt : t0 < pyDiv ny nx <;> simp [hlt]
      · by_cases hlt : t0 < pyDiv ny nx <;> simp [hlt]
      · by_cases hlt : t0 < pyDiv ny nx <;> simp [hlt]
    | none =>
      cases hsy : st.seqlen_y with
      | none =>
        exfalso
        have hz : classify cfg name st = .error .nameError := by
          simp only [classify, hy, hx]
          rw [if_neg hfloor, if_neg hnx, hm]
          simp only [Bool.false_eq_true, if_false, ht, hsy]
        rw [hz] at hc
        cases hc
      | some sy =>
        cases hsx : st.seqlen_x with
        | none =>
          exfalso
          have hz : classify cfg name st = .error .nameError := by
            simp only [classify, hy, hx]
            rw [if_neg hfloor, if_neg hnx, hm]
            simp only [Bool.false_eq_true, if_false, ht, hsy, hsx]
          rw [hz] at hc
          cases hc
        | some sx =>
          by_cases hsx0 : sx = 0
          · exfalso
            have hz : classify cfg name st = .error .zeroDivError := by
              simp only [classify, hy, hx]
              rw [if_neg hfloor, if_neg hnx, hm]
              simp only [Bool.false_eq_true, if_false, ht, hsy, hsx]
              rw [if_pos hsx0]
            rw [hz] at hc
            cases hc
          · rw [classify_single_auto cfg name st ny nx sy sx hm ht hy hx hfloor hnx hsy hsx hsx0] at hc
            injection hc with hc'
            have hrow : row = ⟨name,
                if pyDiv sy (4 * sx) < pyDiv ny nx then .male else .female,
                some ny, some nx, some (pyDiv ny nx), some (pyDiv sy (4 * sx))⟩ :=
              (congrArg Prod.fst hc').symm
            subst hrow
            refine ⟨pyDiv sy (4 * sx), pyDiv ny nx, rfl, rfl, pyDiv_eq ny nx hnx, ?_, ?_, ?_⟩
            · by_cases hlt : pyDiv sy (4 * sx) < pyDiv ny nx <;> simp [hlt]
            · by_cases hlt : pyDiv sy (4 * sx) < pyDiv ny nx <;> simp [hlt]
            · by_cases hlt : pyDiv sy (4 * sx) < pyDiv ny nx <;> simp [hlt]

theorem C7_witness :
    ∃ t r : ℚ, rowOkA.threshold = some t ∧ rowOkA.ratio = some r ∧
      r = ((50 : ℤ) : ℚ) / ((5 : ℤ) : ℚ) ∧
      (rowOkA.sex = .male ↔ t < r) ∧
      (rowOkA.sex = .female ↔ ¬ t < r) ∧
      rowOkA.sex ≠ .undetermined :=
  C7_single_mode_decision cfgMin1 "s1"
    ⟨some 50, some 5, some 1000, some 2000, none, none⟩ 50 5 rowOkA
    ⟨some 50, some 5, some 1000, some 2000,
      some (some (pyDiv 50 5)), some (some (pyDiv 1000 8000))⟩
    rfl rfl rfl (by decide) (by decide)

/-- C8 counterexample: with the pathological configuration upper = 1 <
lower = 3 and a sample of ratio 2, the ratio is strictly below the lower
bound yet the code labels the sample male (the upper-bound test fires
first), not female as the claim demands. -/
theorem C8_counterexample :
    cfgInverted.two_thresholds = true ∧
    cfgInverted.lower_threshold = some 3 ∧
    cfgInverted.upper_threshold = some 1 ∧
    runBatch cfgInverted [fileNoMatch, fileRatio2] =
      .ok [⟨"u", .undetermined, none, none, none, none⟩,
           ⟨"s", .male, some 10, some 5, some (pyDiv 10 5), none⟩] ∧
    pyDiv 10 5 < (3 : ℚ) ∧ Sex.male ≠ Sex.female := by decide

/-- C8 (amended): in two-threshold mode with both bounds configured **and
lower ≤ upper**, for every sample whose ratio is computed: ratio above the
upper bound is male, ratio below the lower bound is female, and a ratio
inside `[lower, upper]` (ties included) is undetermined.  (Without
`lower ≤ upper` the male rule wins, see the counterexample.) -/
theorem C8_two_mode_decision (cfg : Config) (name : String) (st : PState)
    (ny nx : ℤ) (lo hi : ℚ) (row : Row) (st' : PState)
    (hm : cfg.two_thresholds = true)
    (hlo : cfg.lower_threshold = some lo) (hhi : cfg.upper_threshold = some hi)
    (hord : lo ≤ hi)
    (hy : st.nreads_y = some ny) (hx : st.nreads_x = some nx)
    (hfloor : ¬(ny < cfg.min_y ∨ nx < cfg.min_x))
    (hc : classify cfg name st = .ok (row, st')) :
    ∃ r : ℚ, row.ratio = some r ∧ r = (ny : ℚ) / (nx : ℚ) ∧
      (hi < r → row.sex = .male) ∧
      (r < lo → row.sex = .female) ∧
      (lo ≤ r ∧ r ≤ hi → row.sex = .undetermined) := by
  by_cases hnx : nx = 0
  · exfalso
    have hz : classify cfg name st = .error .zeroDivError := by
      simp only [classify, hy, hx]
      rw [if_neg hfloor, if_pos hnx]
    rw [hz] at hc
    cases hc
  · cases hth : st.threshold with
    | none =>
      exfalso
      have hz : classify cfg name st = .error .nameError := by
        simp only [classify, hy, hx]
        rw [if_neg hfloor, if_neg hnx, hm, if_pos rfl]
        simp only [hlo, hhi, mkRow, hth]
      rw [hz] at hc
      cases hc
    | some tprev =>
      rw [classify_two cfg name st ny nx lo hi tprev hm hlo hhi hy hx hfloor hnx hth] at hc
      injection hc with hc'
      have hrow : row = ⟨name,
          if hi < pyDiv ny nx then .male
          else if pyDiv ny nx < lo then .female else .undetermined,
          some ny, some nx, some (pyDiv ny nx), tprev⟩ := (congrArg Prod.fst hc').symm
      subst hrow
      refine ⟨pyDiv ny nx, rfl, pyDiv_eq ny nx hnx, ?_, ?_, ?_⟩
      · intro h
        simp [h]
      · intro h
        have hnh : ¬ hi < pyDiv ny nx := not_lt.mpr (le_of_lt (lt_of_lt_of_le h hord))
        simp [hnh, h]
      · rintro ⟨h1, h2⟩
        have hn1 : ¬ hi < pyDiv ny nx := not_lt.mpr h2
        have hn2 : ¬ pyDiv ny nx < lo := not_lt.mpr h1
        simp [hn1, hn2]

theorem C8_witness :
    ∃ r : ℚ,
      (⟨"s", .undetermined, some 10, some 5, some (pyDiv 10 5), none⟩ : Row).ratio = some r ∧
      r = ((10 : ℤ) : ℚ) / ((5 : ℤ) : ℚ) ∧
      ((2 : ℚ) < r →
        (⟨"s", .undetermined, some 10, some 5, some (pyDiv 10 5), none⟩ : Row).sex = .male) ∧
      (r < (1 : ℚ) →
        (⟨"s", .undetermined, some 10, some 5, some (pyDiv 10 5), none⟩ : Row).sex = .female) ∧
      ((1 : ℚ) ≤ r ∧ r ≤ (2 : ℚ) →
        (⟨"s", .undetermined, some 10, some 5, some (pyDiv 10 5), none⟩ : Row).sex = .undetermined) :=
  C8_two_mode_decision cfgTwoOk "s"
    ⟨some 10, some 5, some 100, some 100, none, some none⟩ 10 5 1 2
    ⟨"s", .undetermined, some 10, some 5, some (pyDiv 10 5), none⟩
    ⟨some 10, some 5, some 100, some 100, some (some (pyDiv 10 5)), some none⟩
    rfl rfl rfl (by norm_num) rfl rfl (by decide) (by decide)

/-- C9: in single-threshold mode with no fixed threshold configured, for a
sample whose ratio is computed, the threshold used is exactly
`0.25 * seqlen_y / seqlen_x`, where the sequence lengths are the ones this
very file's scan retained — parsed from its own last Y-matching and
X-matching lines, so the threshold is recomputed per sample. -/
theorem C9_auto_threshold (cfg : Config) (st : PState) (f : SampleFile)
    (st2 : PState) (ny nx : ℤ) (row : Row) (st' : PState)
    (hm : cfg.two_thresholds = false) (ht : cfg.threshold = none)
    (hscan : scanLines cfg (resetReads st) f.lines = .ok st2)
    (hy : st2.nreads_y = some ny) (hx : st2.nreads_x = some nx)
    (hfloor : ¬(ny < cfg.min_y ∨ nx < cfg.min_x))
    (hp : processFile cfg st f = .ok (row, st')) :
    ∃ (ly lx : String) (sy sx : ℤ),
      lastMatch (yTest cfg) f.lines = some ly ∧ pyIntAt ly 1 = .ok sy ∧
      lastMatch (xTest cfg) f.lines = some lx ∧ pyIntAt lx 1 = .ok sx ∧
      st2.seqlen_y = some sy ∧ st2.seqlen_x = some sx ∧
      row.threshold = some ((sy : ℚ) * (1 / 4) / (sx : ℚ)) := by
  have hc : classify cfg f.name st2 = .ok (row, st') := by
    have hu : processFile cfg st f =
        match scanLines cfg (resetReads st) f.lines with
        | .error e => .error e
        | .ok s2 => classify cfg f.name s2 := rfl
    rw [hu, hscan] at hp
    exact hp
  have hYret := scanLines_y_retained cfg f.lines (resetReads st) st2 hscan
  have hXret := scanLines_x_retained cfg f.lines (resetReads st) st2 hscan
  cases hly : lastMatch (yTest cfg) f.lines with
  | none =>
    exfalso
    rw [hly, retainedStats_none] at hYret
    injection hYret with hpair
    have h1 := congrArg Prod.fst hpair
    rw [hy] at h1
    exact Option.noConfusion h1
  | some ly =>
    rw [hly] at hYret
    obtain ⟨n, s, hp2, hp1, hpair⟩ := retainedStats_ok_some ly _ _ _ hYret
    have hs : st2.seqlen_y = some s := congrArg Prod.snd hpair
    cases hlx : lastMatch (xTest cfg) f.lines with
    | none =>
      exfalso
      rw [hlx, retainedStats_none] at hXret
      injection hXret with hpairx
      have h1 := congrArg Prod.fst hpairx
      rw [hx] at h1
      exact Option.noConfusion h1
    | some lx =>
      rw [hlx] at hXret
      obtain ⟨m, u, hq2, hq1, hpairx⟩ := retainedStats_ok_some lx _ _ _ hXret
      have hus : st2.seqlen_x = some u := congrArg Prod.snd hpairx
      by_cases hnx : nx = 0
      · exfalso
        have hz : classify cfg f.name st2 = .error .zeroDivError := by
          simp only [classify, hy, hx]
          rw [if_neg hfloor, if_pos hnx]
        rw [hz] at hc
        cases hc
      · by_cases hu0 : u = 0
        · exfalso
          have hz : classify cfg f.name st2 = .error .zeroDivError := by
            simp only [classify, hy, hx]
            rw [if_neg hfloor, if_neg hnx, hm]
            simp only [Bool.false_eq_true, if_false, ht, hs, hus]
            rw [if_pos hu0]
          rw [hz] at hc
          cases hc
        · rw [classify_single_auto cfg f.name st2 ny nx s u hm ht hy hx hfloor hnx hs hus hu0] at hc
          injection hc with hc'
          have hrow : row = ⟨f.name,
              if pyDiv s (4 * u) < pyDiv ny nx then .male else .female,
              some ny, some nx, some (pyDiv ny nx), some (pyDiv s (4 * u))⟩ :=
            (congrArg Prod.fst hc').symm
          refine ⟨ly, lx, s, u, rfl, hp1, rfl, hq1, hs, hus, ?_⟩
          rw [hrow]
          show some (pyDiv s (4 * u)) = some ((s : ℚ) * (1 / 4) / (u : ℚ))
          rw [pyDiv_quarter s u hu0]

theorem C9_witness :
    ∃ (ly lx : String) (sy sx : ℤ),
      lastMatch (yTest cfgMin1) fileOk.lines = some ly ∧ pyIntAt ly 1 = .ok sy ∧
      lastMatch (xTest cfgMin1) fileOk.lines = some lx ∧ pyIntAt lx 1 = .ok sx ∧
      (⟨some 50, some 5, some 1000, some 2000, none, none⟩ : PState).seqlen_y = some sy ∧
      (⟨some 50, some 5, some 1000, some 2000, none, none⟩ : PState).seqlen_x = some sx ∧
      rowOkA.threshold = some ((sy : ℚ) * (1 / 4) / (sx : ℚ)) :=
  C9_auto_threshold cfgMin1 initState fileOk
    ⟨some 50, some 5, some 1000, some 2000, none, none⟩ 50 5 rowOkA
    ⟨some 50, some 5, some 1000, some 2000,
      some (some (pyDiv 50 5)), some (some (pyDiv 1000 8000))⟩
    rfl rfl (by decide) rfl rfl (by decide) (by decide)

/-- C10: a line containing both the configured Y name and the configured X
name is attributed to the Y chromosome only — it sets the Y read count and
sequence length from its own fields and leaves the X statistics exactly as
they were (the X test sits in an `elif`). -/
theorem C10_shared_line_goes_to_y (cfg : Config) (st : PState) (line : String) (st' : PState)
    (hy : pyIn cfg.ychrom line = true) (_hx : pyIn cfg.xchrom line = true)
    (h : scanLine cfg st line = .ok st') :
    st'.nreads_x = st.nreads_x ∧ st'.seqlen_x = st.seqlen_x ∧
    ∃ n s, pyIntAt line 2 = .ok n ∧ pyIntAt line 1 = .ok s ∧
      st'.nreads_y = some n ∧ st'.seqlen_y = some s := by
  rcases scanLine_char cfg st line st' h with
    ⟨n, s, _, h2, h1, hst⟩ | ⟨n, s, hyf, _, _, _, _⟩ | ⟨hyf, _, _⟩
  · subst hst
    exact ⟨rfl, rfl, n, s, h2, h1, rfl, rfl⟩
  · exfalso
    unfold yTest at hyf
    rw [hy] at hyf
    cases hyf
  · exfalso
    unfold yTest at hyf
    rw [hy] at hyf
    cases hyf

theorem C10_witness :
    (⟨some 5, some 7, some 10, some 99, none, none⟩ : PState).nreads_x =
      (⟨none, some 7, none, some 99, none, none⟩ : PState).nreads_x ∧
    (⟨some 5, some 7, some 10, some 99, none, none⟩ : PState).seqlen_x =
      (⟨none, some 7, none, some 99, none, none⟩ : PState).seqlen_x ∧
    ∃ n s, pyIntAt "chrY\t10\t5\t0" 2 = .ok n ∧ pyIntAt "chrY\t10\t5\t0" 1 = .ok s ∧
      (⟨some 5, some 7, some 10, some 99, none, none⟩ : PState).nreads_y = some n ∧
      (⟨some 5, some 7, some 10, some 99, none, none⟩ : PState).seqlen_y = some s :=
  C10_shared_line_goes_to_y cfgOverlap ⟨none, some 7, none, some 99, none, none⟩
    "chrY\t10\t5\t0" ⟨some 5, some 7, some 10, some 99, none, none⟩
    (by decide) (by decide) (by decide)
